import Mathlib

/-!
Verification of the dr-data schema/ordering orchestrator.

The repository source under scrutiny is `src/dr_data/main.py`: the command
dispatcher (`Main.execute_cmd`) and the four command implementations
(`execute_transplant`, `execute_inject`, `execute_biopsy`, `execute_cleanse`).
The core pipeline modules (`dr_data.biopsy`, `dr_data.inject`,
`dr_data.transplant`, the database and file utilities) are not part of the
source tree; where a claim depends on them they are modelled from the spec,
and each such definition carries a doc comment starting with
`Modelled from the spec:`.

Machine integers of the original code are embedded as `Int`/`Nat`; Python
truthiness of `argparse` values is embedded explicitly (`intArgFalsy`,
`strArgFalsy`).
-/

namespace DrData

/-! ## Data model (spec section 3) -/

/-- A column of a table: name and nullability (the fields the claims need). -/
structure ColumnDescriptor where
  name : String
  nullable : Bool
  deriving Repr, DecidableEq

/-- A foreign key: source (table, column), target (table, column), and whether
the referencing column is nullable (a nullable edge may be broken for cycle
resolution). -/
structure ForeignKeyDescriptor where
  srcTable : String
  srcColumn : String
  tgtTable : String
  tgtColumn : String
  nullable : Bool
  deriving Repr, DecidableEq

/-- A table: name, columns, foreign keys. -/
structure TableDescriptor where
  name : String
  columns : List ColumnDescriptor
  foreignKeys : List ForeignKeyDescriptor
  deriving Repr, DecidableEq

/-- One point-in-time view of the database structure. -/
structure SchemaSnapshot where
  tables : List TableDescriptor
  deriving Repr, DecidableEq

/-- The names of the tables of a snapshot, in snapshot order. -/
def SchemaSnapshot.tableNames (s : SchemaSnapshot) : List String :=
  s.tables.map (fun t => t.name)

/-- A directed dependency edge `(parent, child)`: the child table references
the parent table, so the parent must be inserted first. -/
abbrev Edge := String × String

/-- The non-nullable foreign-key edges of a snapshot: each non-nullable
foreign key contributes an edge from the referenced (parent) table to the
referencing (child) table.  Nullable foreign keys are excluded. -/
def SchemaSnapshot.nonNullableEdges (s : SchemaSnapshot) : List Edge :=
  s.tables.flatMap (fun t =>
    (t.foreignKeys.filter (fun fk => !fk.nullable)).map
      (fun fk => (fk.tgtTable, fk.srcTable)))

/-- Well-formedness of a snapshot: table names are distinct and every
non-nullable foreign-key edge joins two tables of the snapshot. -/
def SchemaSnapshot.WellFormed (s : SchemaSnapshot) : Prop :=
  s.tableNames.Nodup ∧
    ∀ e ∈ s.nonNullableEdges, e.1 ∈ s.tableNames ∧ e.2 ∈ s.tableNames

/-! ## Dependency resolution (spec section 4.2) -/

/-- Number of edges pointing into node `n`. -/
def inDeg (edges : List Edge) (n : String) : Nat :=
  (edges.filter (fun e => e.2 == n)).length

/-- The nodes of `remaining` with no incoming edge. -/
def zeroCandidates (remaining : List String) (edges : List Edge) : List String :=
  remaining.filter (fun n => inDeg edges n == 0)

/-- The lexicographically smallest node of `remaining` with in-degree zero,
if any. -/
def pickZero (remaining : List String) (edges : List Edge) : Option String :=
  (zeroCandidates remaining edges).min?

/-- Modelled from the spec: the loop of the deterministic topological sort of
`DependencyResolver` (module `dr_data.biopsy`, not under `src/`).  Spec 4.2:
repeatedly select the lexicographically smallest node with in-degree zero,
remove it and its outgoing edges; if no such node exists while nodes remain,
fail reporting the remaining nodes.  Fuel bounds the recursion by the number
of nodes. -/
def kahnAux : Nat → List String → List Edge → List String →
    Except (List String) (List String)
  | 0, remaining, _, acc =>
      if remaining.isEmpty then .ok acc.reverse else .error remaining
  | fuel + 1, remaining, edges, acc =>
      if remaining.isEmpty then .ok acc.reverse else
        match pickZero remaining edges with
        | none => .error remaining
        | some n =>
            kahnAux fuel (remaining.erase n)
              (edges.filter (fun e => e.1 != n && e.2 != n)) (n :: acc)

/-- Modelled from the spec: the deterministic topological sort of
`DependencyResolver` over a node list and an edge list. -/
def topoSort (nodes : List String) (edges : List Edge) :
    Except (List String) (List String) :=
  kahnAux nodes.length nodes edges []

/-- The error raised when removing all nullable foreign-key edges still
leaves a cycle; it carries the remaining (unorderable) tables. -/
structure CyclicDependencyError where
  tables : List String
  deriving Repr, DecidableEq

/-- Modelled from the spec: `DependencyResolver` (spec 4.2, module not under
`src/`).  Builds the directed graph of non-nullable foreign-key edges over
the snapshot tables and topologically sorts it; on an unbreakable cycle it
fails with `CyclicDependencyError` naming the remaining tables. -/
def dependencyResolver (s : SchemaSnapshot) :
    Except CyclicDependencyError (List String) :=
  match topoSort s.tableNames s.nonNullableEdges with
  | .ok l => .ok l
  | .error rem => .error ⟨rem⟩

/-! ## Graph-theoretic notions used to state the claims -/

/-- `Reaches edges a b`: there is a nonempty directed path from `a` to `b`. -/
def Reaches (edges : List Edge) (a b : String) : Prop :=
  Relation.TransGen (fun x y => (x, y) ∈ edges) a b

/-- The graph has no directed cycle. -/
def Acyclic (edges : List Edge) : Prop :=
  ∀ n, ¬ Reaches edges n n

/-- `IsCycle edges c`: the nonempty list `c`, read cyclically, traverses
edges of the graph (an edge from each element to its cyclic successor). -/
def IsCycle (edges : List Edge) (c : List String) : Prop :=
  c ≠ [] ∧ ∀ i, i < c.length →
    (c.getD i "", c.getD ((i + 1) % c.length) "") ∈ edges

end DrData

namespace DrData

/-- A tiny acyclic example schema (spec section 8):
`customers(id PK)` and `orders(id PK, customer_id FK -> customers.id NOT NULL)`. -/
def exampleSchema : SchemaSnapshot :=
  { tables :=
      [ { name := "customers"
          columns := [{ name := "id", nullable := false }]
          foreignKeys := [] },
        { name := "orders"
          columns :=
            [{ name := "id", nullable := false },
             { name := "customer_id", nullable := false }]
          foreignKeys :=
            [{ srcTable := "orders", srcColumn := "customer_id"
               tgtTable := "customers", tgtColumn := "id"
               nullable := false }] } ] }

/-- A mutual non-nullable cycle (spec section 8):
`a(id PK, b_id FK -> b.id NOT NULL)` and `b(id PK, a_id FK -> a.id NOT NULL)`. -/
def cycleSchema : SchemaSnapshot :=
  { tables :=
      [ { name := "a"
          columns := [{ name := "id", nullable := false }]
          foreignKeys :=
            [{ srcTable := "a", srcColumn := "b_id"
               tgtTable := "b", tgtColumn := "id"
               nullable := false }] },
        { name := "b"
          columns := [{ name := "id", nullable := false }]
          foreignKeys :=
            [{ srcTable := "b", srcColumn := "a_id"
               tgtTable := "a", tgtColumn := "id"
               nullable := false }] } ] }

example : dependencyResolver exampleSchema = .ok ["customers", "orders"] := by
  rfl

example : dependencyResolver cycleSchema = .error ⟨["a", "b"]⟩ := by
  rfl

/-! ## The orchestrator (`src/dr_data/main.py`) -/

/-- The parsed command-line arguments of `Main.parse_args`
(`main.py` lines 51-68).  `argparse` leaves an unsupplied `type=str` or
`type=int` option as `None`, embedded as `none`. -/
structure Args where
  transplant : Bool := false
  source : Option String := none
  destination : Option String := none
  inject : Bool := false
  rows : Option Int := none
  biopsy : Bool := false
  exportDir : Option String := none
  cleanse : Bool := false
  deriving Repr, DecidableEq

/-- The filesystem as the orchestrator observes it: `os.path.isfile` and
`os.path.isdir`. -/
structure FileSystem where
  isFile : String → Bool
  isDir : String → Bool

/-- Python truthiness of an `argparse` integer option: `not x` is true when
the option is absent (`None`) or equal to `0`. -/
def intArgFalsy : Option Int → Bool
  | none => true
  | some n => n == 0

/-- Python truthiness of an `argparse` string option: `not x` is true when
the option is absent (`None`) or the empty string. -/
def strArgFalsy : Option String → Bool
  | none => true
  | some s => s == ""

/-- Message constants of `dr_data.config` (the module is not under `src/`;
the exact wording is irrelevant to the claims, only the identity of each
constant matters). -/
def NO_ARGUMENTS : String := "No arguments given"

def INJECT_NO_ROWS : String := "inject requires the -rows argument"

def TRANSPLANT_NO_SOURCE : String := "transplant requires the -source argument"

def TRANSPLANT_NO_DESTINATION : String :=
  "transplant on a file requires the -destination argument"

def TRANSPLANT_NOT_CSV : String := "transplant source must be a CSV file"

def BIOPSY_NO_EXPORT : String := "biopsy requires the -export argument"

def BIOPSY_EXPORT_NOT_EXIST : String := "biopsy export path does not exist"

def TRANSPLANT_START : String := "transplant started"

def TRANSPLANT_COMPLETE : String := "transplant complete"

def INJECT_COMPLETE : String := "inject complete"

def BIOPSY_START : String := "biopsy started"

def BIOPSY_GENERATED_SCHEMA : String := "generated schema file"

def BIOPSY_GENERATED_INSERT_ORDER_SCHEMA : String :=
  "generated insertion order file"

def BIOPSY_COMPLETE : String := "biopsy complete"

def CLEANSE_COMPLETE : String := "cleanse complete"

/-- A JSON artifact written by `FileUtility.generate_json_file`, by shape:
either the serialized schema alone, the insertion order alone, or a single
object holding both under a `schema` key and an `insertion_order` key. -/
inductive Artifact where
  | schemaArtifact (s : SchemaSnapshot)
  | orderArtifact (o : List String)
  | combined (s : SchemaSnapshot) (o : List String)
  deriving Repr, DecidableEq

/-- An externally observable step of a command run. -/
inductive Event where
  | introspect (s : SchemaSnapshot) (order : List String)
  | generateRows (order : List String) (rows : Int)
  | loadFile (source destination : String)
  | loadDirectory (source : String) (s : SchemaSnapshot) (order : List String)
  | truncateTable (t : String)
  | writeJson (filename : String) (a : Artifact)
  | print (msg : String)
  | printHelp
  | exit
  deriving Repr, DecidableEq

/-- An error that aborts a command: a raised
`argparse.ArgumentTypeError` or a `CyclicDependencyError`. -/
inductive CmdError where
  | argError (msg : String)
  | cyclic (e : CyclicDependencyError)
  deriving Repr, DecidableEq

/-- The observable outcome of a command: the events it performed, in order,
and the error that aborted it, if any. -/
structure Outcome where
  events : List Event
  error : Option CmdError
  deriving Repr, DecidableEq

/-- Modelled from the spec: `Biopsy(configuration, cache).execute_cmd()`
(module `dr_data.biopsy`, not under `src/`).  Per spec sections 2 and 4 it
runs `SchemaIntrospector` then `DependencyResolver` and returns the pair of
the schema snapshot and the insertion order (`main.py` indexes the result as
`schema_data[0]` for the schema and `schema_data[1]` for the insertion
order); an unbreakable cycle raises `CyclicDependencyError`.  The live
database is abstracted as the snapshot `db` its introspection returns. -/
def biopsyExecuteCmd (db : SchemaSnapshot) :
    Except CyclicDependencyError (SchemaSnapshot × List String) :=
  match dependencyResolver db with
  | .ok order => .ok (db, order)
  | .error e => .error e

/-- Modelled from the spec: `FileUtility.is_csv_file` (module
`dr_data.utilities.file`, not under `src/`): whether the path names a CSV
file, by its extension. -/
def is_csv_file (path : String) : Bool :=
  path.endsWith ".csv"

/-- Modelled from the spec: `DatabaseUtility.truncate_db` (module
`dr_data.utilities.db`, not under `src/`).  Spec 4.2: the exact reverse of
the insertion order is "used for safe truncation order (children truncated
before parents)", so every table is truncated, in the reverse of the
insertion order. -/
def truncate_db (db : SchemaSnapshot) :
    Except CyclicDependencyError (List Event) :=
  match dependencyResolver db with
  | .ok order => .ok (order.reverse.map Event.truncateTable)
  | .error e => .error e

/-- `Main.execute_transplant` (`main.py` lines 108-129).  Prints the start
message, runs the biopsy, then checks the source: a file source requires a
destination and a CSV extension and loads the single file; a directory
source loads the directory against the schema data; any other source falls
off the end of the function. -/
def execute_transplant (fs : FileSystem) (db : SchemaSnapshot)
    (args : Args) : Outcome :=
  match biopsyExecuteCmd db with
  | .error e => ⟨[.print TRANSPLANT_START], some (.cyclic e)⟩
  | .ok (s, order) =>
    let pre : List Event := [.print TRANSPLANT_START, .introspect s order]
    if strArgFalsy args.source then
      ⟨pre, some (.argError TRANSPLANT_NO_SOURCE)⟩
    else
      let src := args.source.getD ""
      if fs.isFile src then
        if strArgFalsy args.destination then
          ⟨pre, some (.argError TRANSPLANT_NO_DESTINATION)⟩
        else if !is_csv_file src then
          ⟨pre, some (.argError TRANSPLANT_NOT_CSV)⟩
        else
          ⟨pre ++ [.loadFile src (args.destination.getD ""),
                   .print TRANSPLANT_COMPLETE, .exit], none⟩
      else if fs.isDir src then
        ⟨pre ++ [.loadDirectory src s order,
                 .print TRANSPLANT_COMPLETE, .exit], none⟩
      else
        ⟨pre, none⟩

/-- `Main.execute_inject` (`main.py` lines 100-106).  `if not
self.arguments.rows` raises before anything else; otherwise the biopsy runs
and `Inject(self.schema_data[1], ...).execute_cmd(self.arguments.rows)`
generates rows along the insertion order. -/
def execute_inject (db : SchemaSnapshot) (args : Args) : Outcome :=
  if intArgFalsy args.rows then
    ⟨[], some (.argError INJECT_NO_ROWS)⟩
  else
    match biopsyExecuteCmd db with
    | .error e => ⟨[], some (.cyclic e)⟩
    | .ok (s, order) =>
      ⟨[.introspect s order, .generateRows order (args.rows.getD 0),
        .print INJECT_COMPLETE], none⟩

/-- `Main.execute_biopsy` (`main.py` lines 76-94).  Checks the export
directory, runs the biopsy, and writes the schema and the insertion order as
two JSON files named `<db>_schema` and `<db>_biopsy_insertion_order`. -/
def execute_biopsy (fs : FileSystem) (db : SchemaSnapshot)
    (dbName : String) (args : Args) : Outcome :=
  if strArgFalsy args.exportDir then
    ⟨[], some (.argError BIOPSY_NO_EXPORT)⟩
  else if !fs.isDir (args.exportDir.getD "") then
    ⟨[], some (.argError BIOPSY_EXPORT_NOT_EXIST)⟩
  else
    match biopsyExecuteCmd db with
    | .error e => ⟨[.print BIOPSY_START], some (.cyclic e)⟩
    | .ok (s, order) =>
      ⟨[.print BIOPSY_START, .introspect s order,
        .writeJson (dbName ++ "_schema") (.schemaArtifact s),
        .print BIOPSY_GENERATED_SCHEMA,
        .writeJson (dbName ++ "_biopsy_insertion_order")
          (.orderArtifact order),
        .print BIOPSY_GENERATED_INSERT_ORDER_SCHEMA,
        .print BIOPSY_COMPLETE], none⟩

/-- `Main.execute_cleanse` (`main.py` lines 96-98): `self.db_util
.truncate_db()` then the completion message. -/
def execute_cleanse (db : SchemaSnapshot) : Outcome :=
  match truncate_db db with
  | .error e => ⟨[], some (.cyclic e)⟩
  | .ok evs => ⟨evs ++ [.print CLEANSE_COMPLETE], none⟩

/-- `Main.execute_cmd` (`main.py` lines 131-143): dispatch on the four
command flags, in source order; with no flag set, print the no-arguments
message and the parser help. -/
def execute_cmd (fs : FileSystem) (db : SchemaSnapshot) (dbName : String)
    (args : Args) : Outcome :=
  if args.transplant then execute_transplant fs db args
  else if args.inject then execute_inject db args
  else if args.biopsy then execute_biopsy fs db dbName args
  else if args.cleanse then execute_cleanse db
  else ⟨[.print NO_ARGUMENTS, .printHelp], none⟩

/-- Whether an event loads external data into the database. -/
def Event.isLoad : Event → Bool
  | .loadFile _ _ => true
  | .loadDirectory _ _ _ => true
  | _ => false

/-- Whether an event generates synthetic rows. -/
def Event.isGenerate : Event → Bool
  | .generateRows _ _ => true
  | _ => false

/-- Whether an event is the schema introspection / order resolution step. -/
def Event.isIntrospect : Event → Bool
  | .introspect _ _ => true
  | _ => false

/-- Whether an event writes a JSON artifact file. -/
def Event.isWriteJson : Event → Bool
  | .writeJson _ _ => true
  | _ => false

/-- Whether an event touches no external state beyond the console. -/
def Event.isConsoleOnly : Event → Bool
  | .print _ => true
  | .printHelp => true
  | .exit => true
  | _ => false

/-- `precededBy tr p q`: every event of `tr` satisfying `p` has an earlier
event satisfying `q`. -/
def precededBy (tr : List Event) (p q : Event → Bool) : Prop :=
  ∀ i : Fin tr.length, p (tr.get i) = true →
    ∃ j : Fin tr.length, j.val < i.val ∧ q (tr.get j) = true

/-! ## Lemmas about the topological sort -/

theorem inDeg_eq_zero_iff {edges : List Edge} {n : String} :
    inDeg edges n = 0 ↔ ∀ e ∈ edges, e.2 ≠ n := by
  unfold inDeg
  rw [List.length_eq_zero, List.filter_eq_nil_iff]
  constructor
  · intro h e he
    have := h e he
    simpa using this
  · intro h e he
    simpa using h e he

theorem pickZero_spec {remaining : List String} {edges : List Edge}
    {n : String} (h : pickZero remaining edges = some n) :
    n ∈ remaining ∧ inDeg edges n = 0 := by
  have hm : n ∈ zeroCandidates remaining edges :=
    List.min?_mem (fun a b => min_choice a b) h
  have := List.mem_filter.mp hm
  exact ⟨this.1, by simpa using this.2⟩

theorem pickZero_none {remaining : List String} {edges : List Edge}
    (h : pickZero remaining edges = none) :
    ∀ n ∈ remaining, inDeg edges n ≠ 0 := by
  intro n hn hdeg
  have hcand : zeroCandidates remaining edges = [] :=
    List.min?_eq_none_iff.mp h
  have : n ∈ zeroCandidates remaining edges :=
    List.mem_filter.mpr ⟨hn, by simp [hdeg]⟩
  simp [hcand] at this

/-- In a nonempty acyclic graph whose edges stay within `remaining`, some
node of `remaining` has in-degree zero. -/
theorem exists_zero_inDeg (remaining : List String) (edges : List Edge)
    (hne : remaining ≠ [])
    (hclosed : ∀ e ∈ edges, e.1 ∈ remaining ∧ e.2 ∈ remaining)
    (hacy : Acyclic edges) :
    ∃ n ∈ remaining, inDeg edges n = 0 := by
  classical
  by_contra hno
  push_neg at hno
  have hpred : ∀ n ∈ remaining, ∃ m, (m, n) ∈ edges := by
    intro n hn
    have hdeg := hno n hn
    rcases hfil : edges.filter (fun e => e.2 == n) with _ | ⟨e, rest⟩
    · exact absurd (by simp [inDeg, hfil]) hdeg
    · have he : e ∈ edges.filter (fun e => e.2 == n) := by
        rw [hfil]; exact List.mem_cons_self e rest
      have := List.mem_filter.mp he
      refine ⟨e.1, ?_⟩
      have h2 : e.2 = n := by simpa using this.2
      have : (e.1, e.2) ∈ edges := by simpa using this.1
      rwa [h2] at this
  let f : String → String := fun n =>
    if h : ∃ m, (m, n) ∈ edges then h.choose else n
  have hf : ∀ n ∈ remaining, (f n, n) ∈ edges ∧ f n ∈ remaining := by
    intro n hn
    have hx : ∃ m, (m, n) ∈ edges := hpred n hn
    have hch : (hx.choose, n) ∈ edges := hx.choose_spec
    have hfn : f n = hx.choose := by simp only [f, dif_pos hx]
    rw [hfn]
    exact ⟨hch, (hclosed _ hch).1⟩
  obtain ⟨n₀, hn₀⟩ := List.exists_mem_of_ne_nil remaining hne
  have hiter : ∀ k, f^[k] n₀ ∈ remaining := by
    intro k
    induction k with
    | zero => simpa using hn₀
    | succ k ihk =>
      rw [Function.iterate_succ_apply']
      exact (hf _ ihk).2
  have hreach : ∀ d i, Reaches edges (f^[i + d + 1] n₀) (f^[i] n₀) := by
    intro d
    induction d with
    | zero =>
      intro i
      rw [show i + 0 + 1 = i + 1 by omega, Function.iterate_succ_apply']
      exact Relation.TransGen.single (hf _ (hiter i)).1
    | succ d ihd =>
      intro i
      have h1 : Reaches edges (f^[i + 1 + d + 1] n₀) (f^[i + 1] n₀) :=
        ihd (i + 1)
      have h2 : Reaches edges (f^[i + 1] n₀) (f^[i] n₀) := by
        rw [Function.iterate_succ_apply']
        exact Relation.TransGen.single (hf _ (hiter i)).1
      rw [show i + (d + 1) + 1 = i + 1 + d + 1 by omega]
      exact Relation.TransGen.trans h1 h2
  have hlt_reach : ∀ i j, i < j → f^[i] n₀ = f^[j] n₀ → False := by
    intro i j hij heq
    have h1 : Reaches edges (f^[j] n₀) (f^[i] n₀) := by
      have := hreach (j - i - 1) i
      rwa [show i + (j - i - 1) + 1 = j by omega] at this
    rw [← heq] at h1
    exact hacy _ h1
  have hmaps : ∀ k ∈ Finset.range (remaining.length + 1),
      f^[k] n₀ ∈ remaining.toFinset := by
    intro k _
    exact List.mem_toFinset.mpr (hiter k)
  have hcard : remaining.toFinset.card <
      (Finset.range (remaining.length + 1)).card := by
    have := remaining.toFinset_card_le
    rw [Finset.card_range]
    omega
  obtain ⟨i, _, j, _, hij, heq⟩ :=
    Finset.exists_ne_map_eq_of_card_lt_of_maps_to hcard hmaps
  rcases Nat.lt_or_ge i j with hlt | hge
  · exact hlt_reach i j hlt heq
  · have hlt : j < i := by omega
    exact hlt_reach j i hlt heq.symm

/-- Main soundness of the sort loop: with enough fuel, over an acyclic edge
set confined to the distinct remaining nodes, `kahnAux` succeeds with a
permutation of the remaining nodes appended to the accumulator, in which
every edge's source precedes its target. -/
theorem kahnAux_ok_spec (fuel : Nat) :
    ∀ (remaining : List String) (edges : List Edge) (acc : List String),
    remaining.length ≤ fuel →
    remaining.Nodup →
    (∀ e ∈ edges, e.1 ∈ remaining ∧ e.2 ∈ remaining) →
    Acyclic edges →
    ∃ M, kahnAux fuel remaining edges acc = .ok (acc.reverse ++ M) ∧
      M.Perm remaining ∧
      ∀ e ∈ edges, [e.1, e.2].Sublist M := by
  induction fuel with
  | zero =>
    intro remaining edges acc hlen _ hclosed _
    have hnil : remaining = [] :=
      List.length_eq_zero.mp (Nat.le_zero.mp hlen)
    subst hnil
    refine ⟨[], by simp [kahnAux], List.Perm.refl _, ?_⟩
    intro e he
    exact absurd (hclosed e he).1 (List.not_mem_nil _)
  | succ fuel ih =>
    intro remaining edges acc hlen hnd hclosed hacy
    by_cases hre : remaining = []
    · subst hre
      refine ⟨[], by simp [kahnAux], List.Perm.refl _, ?_⟩
      intro e he
      exact absurd (hclosed e he).1 (List.not_mem_nil _)
    · have hempty : remaining.isEmpty = false := by
        simpa using hre
      obtain ⟨n, hpick⟩ : ∃ n, pickZero remaining edges = some n := by
        cases hp : pickZero remaining edges with
        | none =>
          obtain ⟨n, hn, hdeg⟩ := exists_zero_inDeg remaining edges hre hclosed hacy
          exact absurd hdeg (pickZero_none hp n hn)
        | some n => exact ⟨n, rfl⟩
      obtain ⟨hn_mem, hn_deg⟩ := pickZero_spec hpick
      have hstep : kahnAux (fuel + 1) remaining edges acc =
          kahnAux fuel (remaining.erase n)
            (edges.filter (fun e => e.1 != n && e.2 != n)) (n :: acc) := by
        simp [kahnAux, hempty, hpick]
      have hlen' : (remaining.erase n).length ≤ fuel := by
        rw [List.length_erase_of_mem hn_mem]
        have : 0 < remaining.length := List.length_pos.mpr hre
        omega
      have hnd' : (remaining.erase n).Nodup := hnd.erase n
      have hclosed' :
          ∀ e ∈ edges.filter (fun e => e.1 != n && e.2 != n),
            e.1 ∈ remaining.erase n ∧ e.2 ∈ remaining.erase n := by
        intro e he
        have hmem := List.mem_filter.mp he
        have h1 : e.1 ≠ n ∧ e.2 ≠ n := by
          have := hmem.2
          simp at this
          exact this
        exact ⟨(List.mem_erase_of_ne h1.1).mpr (hclosed e hmem.1).1,
               (List.mem_erase_of_ne h1.2).mpr (hclosed e hmem.1).2⟩
      have hacy' : Acyclic (edges.filter (fun e => e.1 != n && e.2 != n)) := by
        intro m hm
        refine hacy m (Relation.TransGen.mono ?_ hm)
        intro x y hxy
        exact List.mem_of_mem_filter hxy
      obtain ⟨M', heq, hperm, hsub⟩ :=
        ih (remaining.erase n) (edges.filter (fun e => e.1 != n && e.2 != n))
          (n :: acc) hlen' hnd' hclosed' hacy'
      refine ⟨n :: M', ?_, ?_, ?_⟩
      · rw [hstep, heq]
        simp
      · exact (hperm.cons n).trans (List.perm_cons_erase hn_mem).symm
      · intro e he
        by_cases h2 : e.2 = n
        · exfalso
          exact inDeg_eq_zero_iff.mp hn_deg e he h2
        · by_cases h1 : e.1 = n
          · have hmem2 : e.2 ∈ M' := by
              rw [hperm.mem_iff]
              exact (List.mem_erase_of_ne h2).mpr (hclosed e he).2
            rw [h1]
            exact List.Sublist.cons₂ n (List.singleton_sublist.mpr hmem2)
          · have hef : e ∈ edges.filter (fun e => e.1 != n && e.2 != n) :=
              List.mem_filter.mpr ⟨he, by simp [h1, h2]⟩
            exact (hsub e hef).cons n

/-- If every node of a nonempty node set `c` has an incoming edge from
within `c`, the sort loop fails and reports a remaining set containing all
of `c`: nodes of an unbreakable cycle are never removed. -/
theorem kahnAux_cycle_error (fuel : Nat) :
    ∀ (remaining : List String) (edges : List Edge) (acc : List String)
      (c : List String),
    c ≠ [] →
    (∀ x ∈ c, x ∈ remaining) →
    (∀ x ∈ c, ∃ y ∈ c, (y, x) ∈ edges) →
    ∃ rem, kahnAux fuel remaining edges acc = .error rem ∧
      ∀ x ∈ c, x ∈ rem := by
  induction fuel with
  | zero =>
    intro remaining edges acc c hne hsub _
    have hrne : remaining.isEmpty = false := by
      obtain ⟨x, hx⟩ := List.exists_mem_of_ne_nil c hne
      have : remaining ≠ [] := by
        intro h
        rw [h] at hsub
        exact absurd (hsub x hx) (List.not_mem_nil x)
      simpa using this
    exact ⟨remaining, by simp [kahnAux, hrne], hsub⟩
  | succ fuel ih =>
    intro remaining edges acc c hne hsub hin
    have hrne : remaining.isEmpty = false := by
      obtain ⟨x, hx⟩ := List.exists_mem_of_ne_nil c hne
      have : remaining ≠ [] := by
        intro h
        rw [h] at hsub
        exact absurd (hsub x hx) (List.not_mem_nil x)
      simpa using this
    cases hp : pickZero remaining edges with
    | none =>
      exact ⟨remaining, by simp [kahnAux, hrne, hp], hsub⟩
    | some n =>
      obtain ⟨hn_mem, hn_deg⟩ := pickZero_spec hp
      have hn_notin : n ∉ c := by
        intro hnc
        obtain ⟨y, _, hedge⟩ := hin n hnc
        exact inDeg_eq_zero_iff.mp hn_deg (y, n) hedge rfl
      have hsub' : ∀ x ∈ c, x ∈ remaining.erase n := by
        intro x hx
        have hxn : x ≠ n := fun h => hn_notin (h ▸ hx)
        exact (List.mem_erase_of_ne hxn).mpr (hsub x hx)
      have hin' : ∀ x ∈ c, ∃ y ∈ c,
          (y, x) ∈ edges.filter (fun e => e.1 != n && e.2 != n) := by
        intro x hx
        obtain ⟨y, hy, hedge⟩ := hin x hx
        have hyn : y ≠ n := fun h => hn_notin (h ▸ hy)
        have hxn : x ≠ n := fun h => hn_notin (h ▸ hx)
        exact ⟨y, hy, List.mem_filter.mpr ⟨hedge, by simp [hyn, hxn]⟩⟩
      obtain ⟨rem, heq, hrem⟩ :=
        ih (remaining.erase n)
          (edges.filter (fun e => e.1 != n && e.2 != n)) (n :: acc)
          c hne hsub' hin'
      refine ⟨rem, ?_, hrem⟩
      rw [show kahnAux (fuel + 1) remaining edges acc =
          kahnAux fuel (remaining.erase n)
            (edges.filter (fun e => e.1 != n && e.2 != n)) (n :: acc) by
        simp [kahnAux, hrne, hp]]
      exact heq

/-- The cyclic predecessor index steps forward to the index it precedes. -/
theorem pred_succ_mod (len j : Nat) (h : j < len) :
    ((j + len - 1) % len + 1) % len = j := by
  have h1 : 0 < len := Nat.lt_of_le_of_lt (Nat.zero_le _) h
  rcases Nat.eq_zero_or_pos j with hj | hj
  · subst hj
    rw [Nat.zero_add, Nat.mod_eq_of_lt (by omega : len - 1 < len),
        show len - 1 + 1 = len by omega, Nat.mod_self]
  · rw [show j + len - 1 = len + (j - 1) by omega, Nat.add_mod_left,
        Nat.mod_eq_of_lt (by omega : j - 1 < len),
        show j - 1 + 1 = j by omega, Nat.mod_eq_of_lt h]

/-- Every node of a cycle has an incoming edge from within the cycle. -/
theorem isCycle_incoming {edges : List Edge} {c : List String}
    (hcyc : IsCycle edges c) :
    ∀ x ∈ c, ∃ y ∈ c, (y, x) ∈ edges := by
  obtain ⟨hne, hstep⟩ := hcyc
  intro x hx
  obtain ⟨j, hj, hget⟩ := List.mem_iff_getElem.mp hx
  have hlen : 0 < c.length := by omega
  have hplt : (j + c.length - 1) % c.length < c.length := Nat.mod_lt _ hlen
  have hedge := hstep ((j + c.length - 1) % c.length) hplt
  rw [pred_succ_mod c.length j hj] at hedge
  have hgd : c.getD j "" = x := by
    rw [List.getD_eq_getElem c "" hj]
    exact hget
  rw [hgd] at hedge
  refine ⟨c.getD ((j + c.length - 1) % c.length) "", ?_, hedge⟩
  rw [List.getD_eq_getElem c "" hplt]
  exact List.getElem_mem hplt

/-- Edges of the non-nullable graph come exactly from the non-nullable
foreign keys of the snapshot tables. -/
theorem mem_nonNullableEdges_of_fk {s : SchemaSnapshot} {t : TableDescriptor}
    {fk : ForeignKeyDescriptor} (ht : t ∈ s.tables) (hfk : fk ∈ t.foreignKeys)
    (hnn : fk.nullable = false) :
    (fk.tgtTable, fk.srcTable) ∈ s.nonNullableEdges := by
  unfold SchemaSnapshot.nonNullableEdges
  rw [List.mem_flatMap]
  exact ⟨t, ht,
    List.mem_map.mpr ⟨fk, List.mem_filter.mpr ⟨hfk, by simp [hnn]⟩, rfl⟩⟩

/-- A graph with one edge between distinct nodes is acyclic. -/
theorem acyclic_single_edge (p q : String) (hpq : p ≠ q) :
    Acyclic [(p, q)] := by
  have hchar : ∀ a b, Reaches [(p, q)] a b → a = p ∧ b = q := by
    intro a b h
    induction h with
    | single h' => simpa using h'
    | tail _ hbc ihab =>
      have := hbc
      simp at this
      exact ⟨ihab.1, this.2⟩
  intro n hn
  obtain ⟨h1, h2⟩ := hchar n n hn
  exact hpq (h1 ▸ h2)

/-- The non-nullable graph of the example schema is the single
customers-to-orders edge. -/
theorem exampleSchema_edges :
    exampleSchema.nonNullableEdges = [("customers", "orders")] := by
  rfl

theorem exampleSchema_acyclic : Acyclic exampleSchema.nonNullableEdges := by
  rw [exampleSchema_edges]
  exact acyclic_single_edge _ _ (by decide)

theorem exampleSchema_wf : exampleSchema.WellFormed := by
  constructor
  · decide
  · decide

/-- Claim C1: for every schema whose foreign-key graph has no cycles after
ignoring nullable edges, the dependency resolver produces an insertion
order that is a total order over exactly the tables of the snapshot (no
omissions, no duplicates: a permutation of the table names, without
repetition) in which every table referenced by a non-nullable foreign key
precedes the table that references it. -/
theorem dependencyResolver_acyclic_ok (s : SchemaSnapshot)
    (hwf : s.WellFormed) (hacy : Acyclic s.nonNullableEdges) :
    ∃ order, dependencyResolver s = .ok order ∧
      order.Perm s.tableNames ∧ order.Nodup ∧
      ∀ t ∈ s.tables, ∀ fk ∈ t.foreignKeys, fk.nullable = false →
        [fk.tgtTable, fk.srcTable].Sublist order := by
  obtain ⟨M, heq, hperm, hsub⟩ :=
    kahnAux_ok_spec s.tableNames.length s.tableNames s.nonNullableEdges []
      (Nat.le_refl _) hwf.1 hwf.2 hacy
  have heq' : topoSort s.tableNames s.nonNullableEdges = .ok M := by
    unfold topoSort
    rw [heq]
    simp
  refine ⟨M, ?_, hperm, hperm.symm.nodup hwf.1, ?_⟩
  · unfold dependencyResolver
    rw [heq']
  · intro t ht fk hfk hnn
    exact hsub _ (mem_nonNullableEdges_of_fk ht hfk hnn)

/-- Witness for C1 at the spec's two-table example schema. -/
theorem dependencyResolver_acyclic_ok_witness :
    exampleSchema.WellFormed ∧ Acyclic exampleSchema.nonNullableEdges ∧
    ∃ order, dependencyResolver exampleSchema = .ok order ∧
      order.Perm exampleSchema.tableNames ∧ order.Nodup ∧
      ∀ t ∈ exampleSchema.tables, ∀ fk ∈ t.foreignKeys,
        fk.nullable = false →
        [fk.tgtTable, fk.srcTable].Sublist order :=
  ⟨exampleSchema_wf, exampleSchema_acyclic,
   dependencyResolver_acyclic_ok exampleSchema exampleSchema_wf
     exampleSchema_acyclic⟩

/-- Claim C2: for every schema that still contains a cycle after removing
all nullable foreign-key edges, dependency resolution fails with
`CyclicDependencyError`, the error names (at least) the tables of the
cycle, and no insertion order is produced (no edge is dropped, no break
point chosen). -/
theorem dependencyResolver_cycle_error (s : SchemaSnapshot) (c : List String)
    (hmem : ∀ x ∈ c, x ∈ s.tableNames)
    (hcyc : IsCycle s.nonNullableEdges c) :
    ∃ err : CyclicDependencyError, dependencyResolver s = .error err ∧
      ∀ x ∈ c, x ∈ err.tables := by
  obtain ⟨rem, heq, hrem⟩ :=
    kahnAux_cycle_error s.tableNames.length s.tableNames s.nonNullableEdges
      [] c hcyc.1 hmem (isCycle_incoming hcyc)
  refine ⟨⟨rem⟩, ?_, hrem⟩
  have heq' : topoSort s.tableNames s.nonNullableEdges = .error rem := heq
  unfold dependencyResolver
  rw [heq']

/-- Witness for C2 at the spec's mutual-cycle example schema. -/
theorem dependencyResolver_cycle_error_witness :
    (∀ x ∈ ["a", "b"], x ∈ cycleSchema.tableNames) ∧
    IsCycle cycleSchema.nonNullableEdges ["a", "b"] ∧
    ∃ err : CyclicDependencyError,
      dependencyResolver cycleSchema = .error err ∧
      ∀ x ∈ ["a", "b"], x ∈ err.tables :=
  ⟨by decide, ⟨by decide, by decide⟩,
   dependencyResolver_cycle_error cycleSchema ["a", "b"] (by decide)
     ⟨by decide, by decide⟩⟩

/-! ## Trace-ordering helpers -/

theorem precededBy_of_none (tr : List Event) (p q : Event → Bool)
    (h : ∀ i : Fin tr.length, p (tr.get i) = false) :
    precededBy tr p q := by
  intro i hpi
  rw [h i] at hpi
  exact absurd hpi (by simp)

theorem precededBy_of_first (tr : List Event) (p q : Event → Bool)
    (k : Nat) (hk : k < tr.length) (hq : q (tr.get ⟨k, hk⟩) = true)
    (hbefore : ∀ i : Fin tr.length, i.val ≤ k → p (tr.get i) = false) :
    precededBy tr p q := by
  intro i hpi
  have hik : k < i.val := by
    by_contra hcon
    push_neg at hcon
    rw [hbefore i hcon] at hpi
    exact absurd hpi (by simp)
  exact ⟨⟨k, hk⟩, hik, hq⟩

/-! ## Concrete inputs used at counterexamples and witnesses -/

/-- A filesystem on which no path is a file or a directory. -/
def fsNone : FileSystem := ⟨fun _ => false, fun _ => false⟩

/-- A filesystem on which every path is a directory and none is a file. -/
def fsDirOnly : FileSystem := ⟨fun _ => false, fun _ => true⟩

/-- A filesystem on which every path is a file and none is a directory. -/
def fsFileOnly : FileSystem := ⟨fun _ => true, fun _ => false⟩

/-- A transplant invocation whose source path exists neither as a file nor
as a directory. -/
def badSourceArgs : Args := { transplant := true, source := some "/data/missing" }

/-- A biopsy invocation with an existing export directory. -/
def biopsyArgs : Args := { biopsy := true, exportDir := some "/data/out" }

/-- Claim C3 (the code at the failing input): with a source path that is
neither an existing file nor an existing directory, `execute_transplant`
completes with no error raised and no load performed — it silently falls
off the end of the function after the start message and the biopsy,
contradicting the propagation policy that a failing command aborts with a
surfaced error. -/
theorem execute_transplant_missing_source_silent :
    (execute_transplant fsNone exampleSchema badSourceArgs).error = none ∧
    (execute_transplant fsNone exampleSchema badSourceArgs).events.all
      (fun e => ! e.isLoad) = true ∧
    (execute_transplant fsNone exampleSchema badSourceArgs).events =
      [.print TRANSPLANT_START,
       .introspect exampleSchema ["customers", "orders"]] := by
  refine ⟨rfl, rfl, rfl⟩

/-- Stated from the spec's words (section 6), for comparison with the code:
the run writes exactly one JSON file, a single object holding the schema
under a `schema` key and the insertion order under an `insertion_order`
key. -/
def emitsSingleCombinedObject (o : Outcome) : Bool :=
  match o.events.filter Event.isWriteJson with
  | [Event.writeJson _ (Artifact.combined _ _)] => true
  | _ => false

/-- Counterexample to claim C4 as stated: at a concrete biopsy invocation
the command does not emit a single JSON object with `schema` and
`insertion_order` keys; it writes two separate JSON files, one holding the
schema and one holding the insertion order. -/
theorem execute_biopsy_not_single_object :
    emitsSingleCombinedObject
      (execute_biopsy fsDirOnly exampleSchema "mydb" biopsyArgs) = false ∧
    (execute_biopsy fsDirOnly exampleSchema "mydb" biopsyArgs).events.filter
        Event.isWriteJson =
      [.writeJson "mydb_schema" (.schemaArtifact exampleSchema),
       .writeJson "mydb_biopsy_insertion_order"
         (.orderArtifact ["customers", "orders"])] := by
  refine ⟨rfl, rfl⟩

/-- Claim C4 (amended): the biopsy command emits the serialized schema and
the insertion order as two separate JSON files (`<db>_schema` and
`<db>_biopsy_insertion_order`) rather than one object with a `schema` and
an `insertion_order` key; the two artifacts are always produced together
from the same schema snapshot — every run either writes nothing or writes
exactly these two files derived from the single biopsy result. -/
theorem execute_biopsy_two_files_same_snapshot (fs : FileSystem)
    (db : SchemaSnapshot) (dbName : String) (args : Args) :
    (execute_biopsy fs db dbName args).events.filter Event.isWriteJson
        = [] ∨
    ∃ s order, biopsyExecuteCmd db = .ok (s, order) ∧
      (execute_biopsy fs db dbName args).events.filter Event.isWriteJson =
        [.writeJson (dbName ++ "_schema") (.schemaArtifact s),
         .writeJson (dbName ++ "_biopsy_insertion_order")
           (.orderArtifact order)] := by
  cases h1 : strArgFalsy args.exportDir with
  | true =>
    left
    simp [execute_biopsy, h1]
  | false =>
    cases h2 : fs.isDir (args.exportDir.getD "") with
    | false =>
      left
      simp [execute_biopsy, h1, h2]
    | true =>
      cases hb : biopsyExecuteCmd db with
      | error e =>
        left
        simp [execute_biopsy, h1, h2, hb, Event.isWriteJson]
      | ok p =>
        obtain ⟨s, order⟩ := p
        right
        refine ⟨s, order, rfl, ?_⟩
        simp [execute_biopsy, h1, h2, hb, Event.isWriteJson]

/-- Witness for C4: at the concrete biopsy invocation the second disjunct
holds with the example schema and its resolved order. -/
theorem execute_biopsy_two_files_same_snapshot_witness :
    (execute_biopsy fsDirOnly exampleSchema "mydb" biopsyArgs).events.filter
        Event.isWriteJson = [] ∨
    ∃ s order, biopsyExecuteCmd exampleSchema = .ok (s, order) ∧
      (execute_biopsy fsDirOnly exampleSchema "mydb"
          biopsyArgs).events.filter Event.isWriteJson =
        [.writeJson ("mydb" ++ "_schema") (.schemaArtifact s),
         .writeJson ("mydb" ++ "_biopsy_insertion_order")
           (.orderArtifact order)] :=
  execute_biopsy_two_files_same_snapshot fsDirOnly exampleSchema "mydb"
    biopsyArgs

/-- The two-event prefix a transplant run emits before inspecting its
source contains no generation or load event. -/
theorem precededBy_start_introspect (s : SchemaSnapshot)
    (order : List String) :
    precededBy [Event.print TRANSPLANT_START, Event.introspect s order]
      (fun e => e.isGenerate || e.isLoad) Event.isIntrospect := by
  refine precededBy_of_none _ _ _ ?_
  intro i
  fin_cases i <;> rfl

/-- Claim C5: in every inject run and every transplant run of the embedded
orchestrator, the introspection/resolution step precedes every
row-generation and every CSV-load event of the trace, and each
row-generation and each directory-load event consumes exactly the
insertion-order artifact returned by the biopsy of that run. -/
theorem introspection_before_generation_and_load (fs : FileSystem)
    (db : SchemaSnapshot) (args : Args) :
    (precededBy (execute_inject db args).events
        (fun e => e.isGenerate || e.isLoad) Event.isIntrospect ∧
      ∀ e ∈ (execute_inject db args).events, ∀ order rows,
        e = .generateRows order rows →
        ∃ s, biopsyExecuteCmd db = .ok (s, order)) ∧
    (precededBy (execute_transplant fs db args).events
        (fun e => e.isGenerate || e.isLoad) Event.isIntrospect ∧
      ∀ e ∈ (execute_transplant fs db args).events, ∀ src s order,
        e = .loadDirectory src s order →
        biopsyExecuteCmd db = .ok (s, order)) := by
  constructor
  · cases hr : intArgFalsy args.rows with
    | true =>
      have hev : (execute_inject db args).events = [] := by
        simp [execute_inject, hr]
      rw [hev]
      exact ⟨precededBy_of_none _ _ _
          (fun i => absurd i.isLt (Nat.not_lt_zero _)), by simp⟩
    | false =>
      cases hb : biopsyExecuteCmd db with
      | error e =>
        have hev : (execute_inject db args).events = [] := by
          simp [execute_inject, hr, hb]
        rw [hev]
        exact ⟨precededBy_of_none _ _ _
            (fun i => absurd i.isLt (Nat.not_lt_zero _)), by simp⟩
      | ok p =>
        obtain ⟨s, order⟩ := p
        have hev : (execute_inject db args).events =
            [.introspect s order, .generateRows order (args.rows.getD 0),
             .print INJECT_COMPLETE] := by
          simp [execute_inject, hr, hb]
        rw [hev]
        constructor
        · refine precededBy_of_first _ _ _ 0 (by simp) rfl ?_
          intro i hi
          have h0 : i = (⟨0, by simp⟩ : Fin _) := Fin.ext (Nat.le_zero.mp hi)
          rw [h0]
          rfl
        · intro e he order' rows' heq
          subst heq
          simp only [List.mem_cons, List.not_mem_nil, or_false] at he
          rcases he with he | he | he
          · exact absurd he (by simp)
          · simp only [Event.generateRows.injEq] at he
            exact ⟨s, by rw [he.1]⟩
          · exact absurd he (by simp)
  · cases hb : biopsyExecuteCmd db with
    | error e =>
      have hev : (execute_transplant fs db args).events =
          [.print TRANSPLANT_START] := by
        simp [execute_transplant, hb]
      rw [hev]
      constructor
      · refine precededBy_of_none _ _ _ ?_
        intro i
        fin_cases i <;> rfl
      · intro e he src' s' order' heq
        subst heq
        simp at he
    | ok p =>
      obtain ⟨s, order⟩ := p
      cases hsf : strArgFalsy args.source with
      | true =>
        have hev : (execute_transplant fs db args).events =
            [.print TRANSPLANT_START, .introspect s order] := by
          simp [execute_transplant, hb, hsf]
        rw [hev]
        refine ⟨precededBy_start_introspect s order, ?_⟩
        intro e he src' s' order' heq
        subst heq
        simp at he
      | false =>
        cases hf : fs.isFile (args.source.getD "") with
        | true =>
          cases hd : strArgFalsy args.destination with
          | true =>
            have hev : (execute_transplant fs db args).events =
                [.print TRANSPLANT_START, .introspect s order] := by
              simp [execute_transplant, hb, hsf, hf, hd]
            rw [hev]
            refine ⟨precededBy_start_introspect s order, ?_⟩
            intro e he src' s' order' heq
            subst heq
            simp at he
          | false =>
            cases hc : is_csv_file (args.source.getD "") with
            | false =>
              have hev : (execute_transplant fs db args).events =
                  [.print TRANSPLANT_START, .introspect s order] := by
                simp [execute_transplant, hb, hsf, hf, hd, hc]
              rw [hev]
              refine ⟨precededBy_start_introspect s order, ?_⟩
              intro e he src' s' order' heq
              subst heq
              simp at he
            | true =>
              have hev : (execute_transplant fs db args).events =
                  [.print TRANSPLANT_START, .introspect s order,
                   .loadFile (args.source.getD "") (args.destination.getD ""),
                   .print TRANSPLANT_COMPLETE, .exit] := by
                simp [execute_transplant, hb, hsf, hf, hd, hc]
              rw [hev]
              constructor
              · refine precededBy_of_first _ _ _ 1 (by simp) rfl ?_
                intro i hi
                rcases Nat.le_one_iff_eq_zero_or_eq_one.mp hi with h0 | h1
                · rw [show i = (⟨0, by simp⟩ : Fin _) from Fin.ext h0]
                  rfl
                · rw [show i = (⟨1, by simp⟩ : Fin _) from Fin.ext h1]
                  rfl
              · intro e he src' s' order' heq
                subst heq
                simp at he
        | false =>
          cases hdir : fs.isDir (args.source.getD "") with
          | true =>
            have hev : (execute_transplant fs db args).events =
                [.print TRANSPLANT_START, .introspect s order,
                 .loadDirectory (args.source.getD "") s order,
                 .print TRANSPLANT_COMPLETE, .exit] := by
              simp [execute_transplant, hb, hsf, hf, hdir]
            rw [hev]
            constructor
            · refine precededBy_of_first _ _ _ 1 (by simp) rfl ?_
              intro i hi
              rcases Nat.le_one_iff_eq_zero_or_eq_one.mp hi with h0 | h1
              · rw [show i = (⟨0, by simp⟩ : Fin _) from Fin.ext h0]
                rfl
              · rw [show i = (⟨1, by simp⟩ : Fin _) from Fin.ext h1]
                rfl
            · intro e he src' s' order' heq
              subst heq
              simp only [List.mem_cons, List.not_mem_nil, or_false] at he
              rcases he with he | he | he | he | he
              · exact absurd he (by simp)
              · exact absurd he (by simp)
              · simp only [Event.loadDirectory.injEq] at he
                rw [he.2.1, he.2.2]
              · exact absurd he (by simp)
              · exact absurd he (by simp)
          | false =>
            have hev : (execute_transplant fs db args).events =
                [.print TRANSPLANT_START, .introspect s order] := by
              simp [execute_transplant, hb, hsf, hf, hdir]
            rw [hev]
            refine ⟨precededBy_start_introspect s order, ?_⟩
            intro e he src' s' order' heq
            subst heq
            simp at he

/-- Witness for C5 at a concrete inject invocation and a concrete
directory-mode transplant invocation. -/
theorem introspection_before_generation_and_load_witness :
    (precededBy (execute_inject exampleSchema
          { inject := true, rows := some 5 }).events
        (fun e => e.isGenerate || e.isLoad) Event.isIntrospect ∧
      ∀ e ∈ (execute_inject exampleSchema
          { inject := true, rows := some 5 }).events, ∀ order rows,
        e = .generateRows order rows →
        ∃ s, biopsyExecuteCmd exampleSchema = .ok (s, order)) ∧
    (precededBy (execute_transplant fsDirOnly exampleSchema
          { inject := true, rows := some 5 }).events
        (fun e => e.isGenerate || e.isLoad) Event.isIntrospect ∧
      ∀ e ∈ (execute_transplant fsDirOnly exampleSchema
          { inject := true, rows := some 5 }).events, ∀ src s order,
        e = .loadDirectory src s order →
        biopsyExecuteCmd exampleSchema = .ok (s, order)) :=
  introspection_before_generation_and_load fsDirOnly exampleSchema
    { inject := true, rows := some 5 }


/-- The tables truncated by an outcome, in truncation order. -/
def truncatedTables (o : Outcome) : List String :=
  o.events.filterMap (fun e => match e with
    | .truncateTable t => some t
    | _ => none)

/-- Extracting the truncated tables from a pure truncation trace recovers
the table list. -/
theorem filterMap_truncate (l : List String) :
    (l.map Event.truncateTable).filterMap (fun e => match e with
      | .truncateTable t => some t
      | _ => none) = l := by
  induction l with
  | nil => rfl
  | cons a l ihl => simp [List.filterMap_cons, ihl]

/-- Claim C6: for every (orderable) schema, the sequence of tables
truncated by the cleanse command is the exact reverse of the insertion
order computed for that schema: every referencing (child) table is
truncated before the table it non-nullably references. -/
theorem execute_cleanse_reverse_order (db : SchemaSnapshot)
    (hwf : db.WellFormed) (hacy : Acyclic db.nonNullableEdges) :
    ∃ order, dependencyResolver db = .ok order ∧
      truncatedTables (execute_cleanse db) = order.reverse ∧
      ∀ t ∈ db.tables, ∀ fk ∈ t.foreignKeys, fk.nullable = false →
        [fk.srcTable, fk.tgtTable].Sublist
          (truncatedTables (execute_cleanse db)) := by
  obtain ⟨M, heq, hperm, hsub⟩ :=
    kahnAux_ok_spec db.tableNames.length db.tableNames db.nonNullableEdges
      [] (Nat.le_refl _) hwf.1 hwf.2 hacy
  have htop : topoSort db.tableNames db.nonNullableEdges = .ok M := by
    unfold topoSort
    rw [heq]
    simp
  have hres : dependencyResolver db = .ok M := by
    unfold dependencyResolver
    rw [htop]
  have hcle : execute_cleanse db =
      ⟨M.reverse.map Event.truncateTable ++ [.print CLEANSE_COMPLETE],
       none⟩ := by
    simp [execute_cleanse, truncate_db, hres]
  have htrunc : truncatedTables (execute_cleanse db) = M.reverse := by
    rw [hcle]
    unfold truncatedTables
    rw [List.filterMap_append, filterMap_truncate]
    simp
  refine ⟨M, hres, htrunc, ?_⟩
  intro t ht fk hfk hnn
  rw [htrunc]
  have h1 : [fk.tgtTable, fk.srcTable].Sublist M :=
    hsub _ (mem_nonNullableEdges_of_fk ht hfk hnn)
  simpa using h1.reverse

/-- Witness for C6 at the spec's two-table example schema. -/
theorem execute_cleanse_reverse_order_witness :
    exampleSchema.WellFormed ∧ Acyclic exampleSchema.nonNullableEdges ∧
    ∃ order, dependencyResolver exampleSchema = .ok order ∧
      truncatedTables (execute_cleanse exampleSchema) = order.reverse ∧
      ∀ t ∈ exampleSchema.tables, ∀ fk ∈ t.foreignKeys,
        fk.nullable = false →
        [fk.srcTable, fk.tgtTable].Sublist
          (truncatedTables (execute_cleanse exampleSchema)) :=
  ⟨exampleSchema_wf, exampleSchema_acyclic,
   execute_cleanse_reverse_order exampleSchema exampleSchema_wf
     exampleSchema_acyclic⟩

/-- Claim C7: the inject command with no row count supplied fails with the
missing-rows argument error before any introspection or generation: the
event trace is empty. -/
theorem execute_inject_requires_rows (db : SchemaSnapshot) (args : Args)
    (h : args.rows = none) :
    (execute_inject db args).error = some (.argError INJECT_NO_ROWS) ∧
    (execute_inject db args).events = [] := by
  constructor <;> simp [execute_inject, h, intArgFalsy]

/-- An inject invocation with no `-rows` argument. -/
def injectNoRowsArgs : Args := { inject := true }

/-- Witness for C7 at a concrete inject invocation. -/
theorem execute_inject_requires_rows_witness :
    injectNoRowsArgs.rows = none ∧
    ((execute_inject exampleSchema injectNoRowsArgs).error =
      some (.argError INJECT_NO_ROWS) ∧
    (execute_inject exampleSchema injectNoRowsArgs).events = []) :=
  ⟨rfl, execute_inject_requires_rows exampleSchema injectNoRowsArgs rfl⟩

/-- Claim C8: in single-file transplant mode (the source names an existing
file), a missing destination or a non-CSV source aborts with an error and
no load is performed; when the biopsy itself succeeded, the error is the
missing-destination or the not-CSV argument error. -/
theorem execute_transplant_file_mode_guard (fs : FileSystem)
    (db : SchemaSnapshot) (args : Args) (p : String)
    (hsrc : args.source = some p) (hne : p ≠ "")
    (hfile : fs.isFile p = true)
    (hbad : strArgFalsy args.destination = true ∨ is_csv_file p = false) :
    (execute_transplant fs db args).error ≠ none ∧
    (∀ e ∈ (execute_transplant fs db args).events, e.isLoad = false) ∧
    ∀ s order, biopsyExecuteCmd db = .ok (s, order) →
      (execute_transplant fs db args).error =
          some (.argError TRANSPLANT_NO_DESTINATION) ∨
      (execute_transplant fs db args).error =
          some (.argError TRANSPLANT_NOT_CSV) := by
  have hsf : strArgFalsy args.source = false := by
    rw [hsrc]
    simpa [strArgFalsy] using hne
  have hgd : args.source.getD "" = p := by
    rw [hsrc]
    rfl
  cases hb : biopsyExecuteCmd db with
  | error e =>
    refine ⟨?_, ?_, ?_⟩
    · simp [execute_transplant, hb]
    · intro ev hev
      simp [execute_transplant, hb] at hev
      subst hev
      rfl
    · intro s order hok
      exact absurd hok (by simp)
  | ok q =>
    obtain ⟨s, order⟩ := q
    cases hd : strArgFalsy args.destination with
    | true =>
      have hout : execute_transplant fs db args =
          ⟨[.print TRANSPLANT_START, .introspect s order],
           some (.argError TRANSPLANT_NO_DESTINATION)⟩ := by
        simp [execute_transplant, hb, hsf, hgd, hfile, hd]
      refine ⟨?_, ?_, ?_⟩
      · rw [hout]
        simp
      · intro ev hev
        rw [hout] at hev
        simp only [List.mem_cons, List.not_mem_nil, or_false] at hev
        rcases hev with hev | hev <;> subst hev <;> rfl
      · intro s' order' _
        left
        rw [hout]
    | false =>
      have hcsv : is_csv_file p = false := by
        rcases hbad with hbad | hbad
        · rw [hd] at hbad
          exact absurd hbad (by simp)
        · exact hbad
      have hout : execute_transplant fs db args =
          ⟨[.print TRANSPLANT_START, .introspect s order],
           some (.argError TRANSPLANT_NOT_CSV)⟩ := by
        simp [execute_transplant, hb, hsf, hgd, hfile, hd, hcsv]
      refine ⟨?_, ?_, ?_⟩
      · rw [hout]
        simp
      · intro ev hev
        rw [hout] at hev
        simp only [List.mem_cons, List.not_mem_nil, or_false] at hev
        rcases hev with hev | hev <;> subst hev <;> rfl
      · intro s' order' _
        right
        rw [hout]

/-- A single-file transplant invocation with no destination whose source
is not a CSV file. -/
def fileNoDestArgs : Args := { transplant := true, source := some "data.txt" }

/-- Witness for C8 at a concrete file-mode transplant invocation. -/
theorem execute_transplant_file_mode_guard_witness :
    fileNoDestArgs.source = some "data.txt" ∧
    fsFileOnly.isFile "data.txt" = true ∧
    strArgFalsy fileNoDestArgs.destination = true ∧
    ((execute_transplant fsFileOnly exampleSchema fileNoDestArgs).error ≠
      none ∧
    (∀ e ∈ (execute_transplant fsFileOnly exampleSchema
        fileNoDestArgs).events, e.isLoad = false) ∧
    ∀ s order, biopsyExecuteCmd exampleSchema = .ok (s, order) →
      (execute_transplant fsFileOnly exampleSchema fileNoDestArgs).error =
          some (.argError TRANSPLANT_NO_DESTINATION) ∨
      (execute_transplant fsFileOnly exampleSchema fileNoDestArgs).error =
          some (.argError TRANSPLANT_NOT_CSV)) :=
  ⟨rfl, rfl, rfl,
   execute_transplant_file_mode_guard fsFileOnly exampleSchema
     fileNoDestArgs "data.txt" rfl (by decide) rfl (Or.inl rfl)⟩

/-- Claim C9: a supplied row count of 0 is rejected by the inject command
exactly as if no row count had been supplied: the whole outcome is
identical, the same missing-rows argument error is raised, and no
introspection or generation event happens. -/
theorem execute_inject_zero_rows (db : SchemaSnapshot) (args : Args)
    (h : args.rows = some 0) :
    execute_inject db args = execute_inject db { args with rows := none } ∧
    (execute_inject db args).error = some (.argError INJECT_NO_ROWS) ∧
    (execute_inject db args).events = [] := by
  refine ⟨?_, ?_, ?_⟩ <;> simp [execute_inject, h, intArgFalsy]

/-- An inject invocation asking for zero rows. -/
def injectZeroRowsArgs : Args := { inject := true, rows := some 0 }

/-- Witness for C9 at a concrete inject invocation with `-rows 0`. -/
theorem execute_inject_zero_rows_witness :
    injectZeroRowsArgs.rows = some 0 ∧
    (execute_inject exampleSchema injectZeroRowsArgs =
      execute_inject exampleSchema { injectZeroRowsArgs with rows := none } ∧
    (execute_inject exampleSchema injectZeroRowsArgs).error =
      some (.argError INJECT_NO_ROWS) ∧
    (execute_inject exampleSchema injectZeroRowsArgs).events = []) :=
  ⟨rfl, execute_inject_zero_rows exampleSchema injectZeroRowsArgs rfl⟩

/-- Claim C10: with none of the four command flags set, dispatch prints
the no-arguments message and the usage help and performs no
database-affecting operation: the outcome has no error and every event is
console-only (no introspection, no write, no truncation, no file
produced). -/
theorem execute_cmd_no_flags (fs : FileSystem) (db : SchemaSnapshot)
    (dbName : String) (args : Args)
    (ht : args.transplant = false) (hi : args.inject = false)
    (hb : args.biopsy = false) (hc : args.cleanse = false) :
    execute_cmd fs db dbName args =
      ⟨[.print NO_ARGUMENTS, .printHelp], none⟩ ∧
    ∀ e ∈ (execute_cmd fs db dbName args).events,
      e.isConsoleOnly = true := by
  have h : execute_cmd fs db dbName args =
      ⟨[.print NO_ARGUMENTS, .printHelp], none⟩ := by
    simp [execute_cmd, ht, hi, hb, hc]
  refine ⟨h, ?_⟩
  rw [h]
  intro e he
  simp only [List.mem_cons, List.not_mem_nil, or_false] at he
  rcases he with he | he <;> subst he <;> rfl

/-- An invocation with none of the four command flags. -/
def noFlagsArgs : Args := {}

/-- Witness for C10 at a concrete flagless invocation. -/
theorem execute_cmd_no_flags_witness :
    noFlagsArgs.transplant = false ∧ noFlagsArgs.inject = false ∧
    noFlagsArgs.biopsy = false ∧ noFlagsArgs.cleanse = false ∧
    (execute_cmd fsNone exampleSchema "mydb" noFlagsArgs =
      ⟨[.print NO_ARGUMENTS, .printHelp], none⟩ ∧
    ∀ e ∈ (execute_cmd fsNone exampleSchema "mydb" noFlagsArgs).events,
      e.isConsoleOnly = true) :=
  ⟨rfl, rfl, rfl, rfl,
   execute_cmd_no_flags fsNone exampleSchema "mydb" noFlagsArgs
     rfl rfl rfl rfl⟩

end DrData
